import Mathlib

/-!
Verification of `kanji_worksheet` (src/kanji_worksheet/make_worksheet.py).

The script is a linear pipeline: resolve the field schema of the flashcard
model named "NihongoShark.com: Kanji" from the Anki database's model
metadata, select notes reviewed in a time window (optionally only those
marked "forgotten", `ease == 1`), split each note's raw field string on
U+001F into an `OrderedDict`, inline each note's stroke-diagram image as a
base64 `data:` URI, render a template and write the result, then launch a
viewer best-effort.

This file shallowly embeds that pipeline: the database is explicit data
(lists of rows), Python exceptions become `Except`/`Option`, the
`OrderedDict` is an association list with insert-or-overwrite semantics,
and the external libraries (`lxml` element parse/serialize, the Jinja
template) are function parameters.  The Python 2 base64 codec
(`.encode('base64')`, MIME line wrapping) is embedded from the standard
base64 definition.
-/

namespace KanjiWorksheet

/-- `FIELD_SEP = u'\x1f'` (make_worksheet.py line 22): the character that
separates field values inside a note's raw field string. -/
def fieldSep : Char := '\x1f'

/-- One field descriptor of a model: `{'name': ..., 'ord': ...}`.  The raw
field data of a note is positional, ordered by `ord`. -/
structure FieldDescr where
  name : String
  ord : Nat
  deriving DecidableEq, Repr

/-- One model (note type) from the JSON `models` mapping of the `col` row:
`{'id': ..., 'name': ..., 'flds': [...]}`. -/
structure Model where
  id : Nat
  name : String
  flds : List FieldDescr
  deriving DecidableEq, Repr

/-- A row of the `notes` table: id, model id (`mid`), raw field string
(`flds`). -/
structure NoteRow where
  id : Nat
  mid : Nat
  flds : String
  deriving DecidableEq, Repr

/-- A row of the `cards` table: id and owning note id (`nid`). -/
structure CardRow where
  id : Nat
  nid : Nat
  deriving DecidableEq, Repr

/-- A row of the `revlog` table: id (a millisecond timestamp), card id
(`cid`), and outcome code (`ease`; `1` means the "again" button, i.e.
forgotten). -/
structure RevlogRow where
  id : Int
  cid : Nat
  ease : Nat
  deriving DecidableEq, Repr

/-- The Anki database as seen by the script: the JSON-decoded `models`
mapping of the single `col` row (a dict, i.e. a list of key/model pairs in
iteration order), and the `notes`, `cards` and `revlog` tables. -/
structure AnkiDb where
  colModels : List (String × Model)
  notes : List NoteRow
  cards : List CardRow
  revlog : List RevlogRow
  deriving Repr

/-- The model name the script looks for (line 30). -/
def targetModelName : String := "NihongoShark.com: Kanji"

/-- The `for k, v in models.items(): if v['name'] == ...: model = v; break`
loop (lines 29-34): the first model in iteration order whose name matches,
if any. -/
def findModel (models : List (String × Model)) : Option Model :=
  (models.find? (fun kv => kv.2.name = targetModelName)).map (fun kv => kv.2)

/-- The ordering `sorted(model['flds'], key=itemgetter('ord'))` sorts by:
ordering index ascending. -/
def fldLe (a b : FieldDescr) : Prop := a.ord ≤ b.ord

instance : DecidableRel fldLe := fun a b => Nat.decLe a.ord b.ord

instance : IsTotal FieldDescr fldLe := ⟨fun a b => Nat.le_total a.ord b.ord⟩

instance : IsTrans FieldDescr fldLe := ⟨fun _ _ _ h h2 => Nat.le_trans h h2⟩

/-- `fields = sorted(model['flds'], key=itemgetter('ord'))` (line 35).
Python's `sorted` is a stable comparison sort; insertion sort is stable
with the same result. -/
def sortFields (flds : List FieldDescr) : List FieldDescr :=
  flds.insertionSort fldLe

/-- `field_names = [f['name'] for f in fields]` (line 36). -/
def modelFieldNames (m : Model) : List String :=
  (sortFields m.flds).map (fun f => f.name)

/-- Python `str.split(sep)` for the single-character separator `sep`,
on the character list of the string: `"".split(sep) == ['']`, and every
occurrence of the separator starts a new segment. -/
def splitFieldsAux : List Char → List (List Char)
  | [] => [[]]
  | c :: rest =>
    match splitFieldsAux rest, decide (c = fieldSep) with
    | r, true => [] :: r
    | [], false => [[c]]
    | s :: ss, false => (c :: s) :: ss

/-- `note.flds.split(FIELD_SEP)` (line 59). -/
def splitFields (s : String) : List String :=
  (splitFieldsAux s.data).map (fun cs => String.mk cs)

/-- `d[k] = v` on a Python (ordered) dict represented as an association
list: if the key is present its value is overwritten in place, otherwise
the pair is appended at the end. -/
def odInsert (d : List (String × String)) (k v : String) : List (String × String) :=
  if d.any (fun p => p.1 = k) then
    d.map (fun p => if p.1 = k then (k, v) else p)
  else
    d ++ [(k, v)]

/-- `OrderedDict(pairs)`: insert the pairs left to right. -/
def odOfList (l : List (String × String)) : List (String × String) :=
  l.foldl (fun d p => odInsert d p.1 p.2) []

/-- `d[k]`, as an `Option` (Python raises `KeyError` when absent). -/
def odGet (d : List (String × String)) (k : String) : Option String :=
  (d.find? (fun p => p.1 = k)).map (fun p => p.2)

/-- `OrderedDict(zip(field_names, note.flds.split(FIELD_SEP)))`
(lines 58-61): the Field Decoder applied to one note. -/
def decodeNote (fieldNames : List String) (raw : String) : List (String × String) :=
  odOfList (fieldNames.zip (splitFields raw))

/-- The revlog query (lines 42-46): `id >= last_time_ms`, and additionally
`ease == 1` when `only_forgotten` is set. -/
def revlogInWindow (revlog : List RevlogRow) (lastTimeMs : Int)
    (onlyForgotten : Bool) : List RevlogRow :=
  let q := revlog.filter (fun r => lastTimeMs ≤ r.id)
  if onlyForgotten then q.filter (fun r => r.ease = 1) else q

/-- `sorted(set(...))` on a list of card ids: deduplicate, then sort
ascending. -/
def sortedDedup (l : List Nat) : List Nat :=
  l.dedup.insertionSort (· ≤ ·)

/-- `card_ids = sorted(set(rev.cid for rev in revs))` (line 47). -/
def cardIdsInWindow (revlog : List RevlogRow) (lastTimeMs : Int)
    (onlyForgotten : Bool) : List Nat :=
  sortedDedup ((revlogInWindow revlog lastTimeMs onlyForgotten).map (fun r => r.cid))

/-- `get_notes_for_reviewed_cards` (lines 25-63).  Errors are the
`RuntimeError` messages the function raises.  The final notes query with
the `cards.c.id.in_(card_ids), notes.id == cards.nid` filter (lines 50-52)
is a cross join of `notes` and `cards`: one result row per matching
(note, card) pair. -/
def getNotesForReviewedCards (db : AnkiDb) (lastTimeMs : Option Int)
    (onlyForgotten : Bool) : Except String (List (List (String × String))) :=
  match findModel db.colModels with
  | none => .error "Could not find the NihongoShark.com: Kanji metadata."
  | some model =>
    let fieldNames := modelFieldNames model
    let baseNotes := db.notes.filter (fun n => n.mid = model.id)
    match lastTimeMs with
    | none => .ok (baseNotes.map (fun n => decodeNote fieldNames n.flds))
    | some t =>
      let cardIds := cardIdsInWindow db.revlog t onlyForgotten
      if cardIds.isEmpty then
        .error "No cards found in time window!"
      else
        let notes := baseNotes.flatMap (fun n =>
          (db.cards.filter (fun c => c.id ∈ cardIds ∧ n.id = c.nid)).map (fun _ => n))
        .ok (notes.map (fun n => decodeNote fieldNames n.flds))

/-! ### Base64 (the Python 2 `.encode('base64')` codec, lines 71-73)

`data.encode('base64')` is `base64.encodestring`: standard base64 with a
newline inserted after every 76 output characters and after the final
partial line.  The inverse codec ignores the newlines. -/

/-- The standard base64 alphabet. -/
def base64Alphabet : List Char :=
  "ABCDEFGHIJKLMNOPQRSTUVWXYZabcdefghijklmnopqrstuvwxyz0123456789+/".data

/-- The character encoding one 6-bit group. -/
def encChar (n : Nat) : Char := base64Alphabet.getD n '='

/-- Position of a character in a list of characters. -/
def posInAux (c : Char) : List Char → Option Nat
  | [] => none
  | d :: ds => if c = d then some 0 else (posInAux c ds).map (fun n => n + 1)

/-- The 6-bit group a base64 character encodes, if any. -/
def decChar (c : Char) : Option Nat := posInAux c base64Alphabet

/-- Raw base64 of a byte list (no line wrapping): three bytes become four
alphabet characters; a final group of one or two bytes is padded with
`'='`. -/
def encode64 : List Nat → List Char
  | [] => []
  | [b1] => [encChar (b1 / 4), encChar (b1 % 4 * 16), '=', '=']
  | [b1, b2] =>
    [encChar (b1 / 4), encChar (b1 % 4 * 16 + b2 / 16), encChar (b2 % 16 * 4), '=']
  | b1 :: b2 :: b3 :: rest =>
    encChar (b1 / 4) :: encChar (b1 % 4 * 16 + b2 / 16) ::
      encChar (b2 % 16 * 4 + b3 / 64) :: encChar (b3 % 64) :: encode64 rest

/-- Decode one four-character base64 group into one, two or three bytes,
depending on the `'='` padding. -/
def decodeQuad (c1 c2 c3 c4 : Char) : Option (List Nat) := do
  let s1 ← decChar c1
  let s2 ← decChar c2
  if c3 = '=' then
    some [s1 * 4 + s2 / 16]
  else do
    let s3 ← decChar c3
    if c4 = '=' then
      some [s1 * 4 + s2 / 16, s2 % 16 * 16 + s3 / 4]
    else do
      let s4 ← decChar c4
      some [s1 * 4 + s2 / 16, s2 % 16 * 16 + s3 / 4, s3 % 4 * 64 + s4]

/-- Decode a sequence of four-character base64 groups. -/
def decode64Groups : List Char → Option (List Nat)
  | [] => some []
  | c1 :: c2 :: c3 :: c4 :: rest => do
    let first ← decodeQuad c1 c2 c3 c4
    let bs ← decode64Groups rest
    some (first ++ bs)
  | _ => none

/-- Base64 decoding as Python's decoder behaves on `encodestring` output:
the line-wrapping newlines are ignored, then the groups are decoded. -/
def decode64 (l : List Char) : Option (List Nat) :=
  decode64Groups (l.filter (fun c => c ≠ '\n'))

/-- Insert a newline after every 76 characters and after the final partial
line (fuel-indexed so the recursion is structural; `fuel` is at least the
length of the list at every call). -/
def mimeWrapAux : Nat → List Char → List Char
  | _, [] => []
  | 0, l => l
  | fuel + 1, l => l.take 76 ++ '\n' :: mimeWrapAux fuel (l.drop 76)

/-- `data.encode('base64')`: base64 with MIME line wrapping. -/
def encodeMime (bs : List Nat) : List Char :=
  mimeWrapAux (encode64 bs).length (encode64 bs)

/-- The fixed head of the rewritten `src` attribute (line 73):
`'data:image/png;base64,{}'.format(base64_data)`. -/
def base64UriHead : String := "data:image/png;base64,"

/-- The complete `data:` URI that `inline_data_images` stores in the `src`
attribute. -/
def dataUri (bs : List Nat) : String := base64UriHead ++ String.mk (encodeMime bs)

/-! ### Image inlining (`inline_data_images`, lines 66-74)

`lxml.etree` is external; an element is modelled as a tag with an ordered
attribute list, and the fragment parser (`etree.fromstring`) and
serializer (`etree.tostring`) are passed in as functions. -/

/-- An XML element as `inline_data_images` uses it: a tag and its
attributes. -/
structure Elem where
  tag : String
  attrs : List (String × String)
  deriving DecidableEq, Repr

/-- `element.get(key)`: the attribute's value, or `None` when absent. -/
def Elem.get (e : Elem) (k : String) : Option String :=
  (e.attrs.find? (fun p => p.1 = k)).map (fun p => p.2)

/-- `element.set(key, value)`: overwrite the attribute in place, or append
it when absent. -/
def Elem.set (e : Elem) (k v : String) : Elem :=
  if e.attrs.any (fun p => p.1 = k) then
    ⟨e.tag, e.attrs.map (fun p => if p.1 = k then (k, v) else p)⟩
  else
    ⟨e.tag, e.attrs ++ [(k, v)]⟩

/-- `os.path.join(media_dir, basename)` for a relative basename. -/
def pathJoin (dir base : String) : String := dir ++ "/" ++ base

/-- `open(fn); f.read()`: the filesystem is a mapping from path to byte
list; a missing file raises (`none`). -/
def readFile (fs : List (String × List Nat)) (fn : String) : Option (List Nat) :=
  (fs.find? (fun p => p.1 = fn)).map (fun p => p.2)

/-- The body of the `for note in note_fields` loop (lines 68-74), on one
note: parse the `strokeDiagram` field, read the referenced image, rewrite
the `src` attribute to a base64 `data:` URI, serialize back into the
field.  `none` models any of the exceptions Python could raise here
(missing key, parse failure, missing attribute, missing file). -/
def inlineNote (parseImg : String → Option Elem) (serImg : Elem → String)
    (fs : List (String × List Nat)) (mediaDir : String)
    (note : List (String × String)) : Option (List (String × String)) := do
  let sd ← odGet note "strokeDiagram"
  let img ← parseImg sd
  let basename ← img.get "src"
  let fileData ← readFile fs (pathJoin mediaDir basename)
  some (odInsert note "strokeDiagram" (serImg (img.set "src" (dataUri fileData))))

/-- `inline_data_images` (lines 66-74): rewrite every note's
`strokeDiagram` field in place.  The Python function mutates the dicts and
returns `None`; the embedding passes the state explicitly and returns the
updated note list. -/
def inlineDataImages (parseImg : String → Option Elem) (serImg : Elem → String)
    (fs : List (String × List Nat)) (mediaDir : String) :
    List (List (String × String)) → Option (List (List (String × String)))
  | [] => some []
  | note :: rest => do
    let note2 ← inlineNote parseImg serImg fs mediaDir note
    let rest2 ← inlineDataImages parseImg serImg fs mediaDir rest
    some (note2 :: rest2)

/-! ### `main` (lines 77-119) -/

/-- `hours = (args.days - 1) * 24 + 16` (line 99). -/
def hoursBack (days : Int) : Int := (days - 1) * 24 + 16

/-- `seconds = hours * 60 * 60` (line 100). -/
def secsBack (days : Int) : Int := hoursBack days * 60 * 60

/-- `last_time_ms = int(round((time.time() - seconds) * 1000))` (line 101),
with the current time given as integer milliseconds
`nowMs = int(round(time.time() * 1000))`: since `seconds * 1000` is an
integer, the rounding distributes and the bound is exactly
`nowMs - seconds * 1000`. -/
def lastTimeMsOfNow (nowMs : Int) (days : Int) : Int :=
  nowMs - secsBack days * 1000

/-- The CLI arguments that matter to the pipeline (lines 81-90). -/
structure MainArgs where
  days : Int
  forgotten : Bool
  output : String

/-- What a completed run of `main` produced: the output path, the text
written to it (line 116-117), the message printed (line 118), and the exit
code that `subprocess.call(['open', args.output])` returned (line 119),
which `main` ignores. -/
structure RunOutput where
  outputPath : String
  written : String
  announced : String
  viewerExit : Int
  deriving DecidableEq, Repr

/-- The pipeline of `main` after argument parsing (lines 103-119): select
and decode the notes, inline the images, render the template, write the
file, print the path, launch the viewer.  `.error` models abnormal
termination (`SystemExit` or an uncaught exception) before anything is
written; in the `.ok` case `written` is the file contents.  The template
engine is the `render` parameter; the viewer's exit code is the
`viewerExit` parameter, which does not influence the result. -/
def runMain (db : AnkiDb) (nowMs : Int) (args : MainArgs)
    (parseImg : String → Option Elem) (serImg : Elem → String)
    (fs : List (String × List Nat)) (mediaDir : String)
    (render : List (List (String × String)) → String)
    (viewerExit : Int) : Except String RunOutput :=
  match getNotesForReviewedCards db (some (lastTimeMsOfNow nowMs args.days)) args.forgotten with
  | .error e => .error e
  | .ok noteFields =>
    match inlineDataImages parseImg serImg fs mediaDir noteFields with
    | none => .error "unhandled exception while inlining images"
    | some inlined =>
      .ok { outputPath := args.output
            written := render inlined
            announced := "Wrote worksheet to " ++ args.output
            viewerExit := viewerExit }

/-! ### Helper lemmas -/

theorem mem_sortedDedup {l : List Nat} {x : Nat} : x ∈ sortedDedup l ↔ x ∈ l := by
  unfold sortedDedup
  rw [List.mem_insertionSort, List.mem_dedup]

theorem nodup_sortedDedup (l : List Nat) : (sortedDedup l).Nodup :=
  (List.perm_insertionSort _ _).nodup_iff.mpr (List.nodup_dedup l)

theorem findModel_of_exists {models : List (String × Model)}
    (h : ∃ kv ∈ models, kv.2.name = targetModelName) :
    ∃ m, findModel models = some m ∧ m.name = targetModelName := by
  have h2 : (models.find? (fun kv => kv.2.name = targetModelName)).isSome := by
    rw [List.find?_isSome]
    obtain ⟨kv, hm, hname⟩ := h
    exact ⟨kv, hm, by simpa using hname⟩
  obtain ⟨kv, hfind⟩ := Option.isSome_iff_exists.mp h2
  have hp := List.find?_some hfind
  refine ⟨kv.2, ?_, by simpa using hp⟩
  unfold findModel
  rw [hfind]
  rfl

/-! ### C1: the Model Resolver -/

/-- C1: for every models metadata mapping containing at least one model
named `NihongoShark.com: Kanji`, the resolver selects a model with that
name, and the field-name list it computes is the name projection of a
permutation of that model's field descriptors that is sorted by `ord`
ascending — for every input order of the descriptors. -/
theorem resolver_selects_and_sorts (models : List (String × Model))
    (h : ∃ kv ∈ models, kv.2.name = targetModelName) :
    ∃ m, findModel models = some m ∧ m.name = targetModelName ∧
      (sortFields m.flds).Perm m.flds ∧
      List.Sorted fldLe (sortFields m.flds) ∧
      modelFieldNames m = (sortFields m.flds).map (fun f => f.name) := by
  obtain ⟨m, hfind, hname⟩ := findModel_of_exists h
  exact ⟨m, hfind, hname, List.perm_insertionSort fldLe m.flds,
    List.sorted_insertionSort fldLe m.flds, rfl⟩

/-- Witness for C1: a metadata mapping whose target model lists its field
descriptors out of `ord` order; the resolver finds it and sorts. -/
theorem resolver_selects_and_sorts_witness :
    (∃ kv ∈ [("1", Model.mk 7 targetModelName
        [⟨"strokeDiagram", 1⟩, ⟨"kanji", 0⟩])], kv.2.name = targetModelName) ∧
    (∃ m, findModel [("1", Model.mk 7 targetModelName
        [⟨"strokeDiagram", 1⟩, ⟨"kanji", 0⟩])] = some m ∧
      m.name = targetModelName ∧
      (sortFields m.flds).Perm m.flds ∧
      List.Sorted fldLe (sortFields m.flds) ∧
      modelFieldNames m = (sortFields m.flds).map (fun f => f.name)) :=
  ⟨⟨_, List.mem_singleton_self _, rfl⟩,
    resolver_selects_and_sorts _ ⟨_, List.mem_singleton_self _, rfl⟩⟩

/-! ### C7: schema not found -/

/-- C7: when no model in the metadata has the expected name,
`get_notes_for_reviewed_cards` raises the schema-not-found `RuntimeError`
(for every time bound and flag value): it never reaches note selection. -/
theorem schema_not_found (db : AnkiDb) (lastTimeMs : Option Int) (onlyForgotten : Bool)
    (h : ∀ kv ∈ db.colModels, kv.2.name ≠ targetModelName) :
    getNotesForReviewedCards db lastTimeMs onlyForgotten =
      .error "Could not find the NihongoShark.com: Kanji metadata." := by
  have hfind : db.colModels.find? (fun kv => kv.2.name = targetModelName) = none := by
    rw [List.find?_eq_none]
    intro kv hkv
    simpa using h kv hkv
  unfold getNotesForReviewedCards findModel
  rw [hfind]
  rfl

/-- Witness for C7: a database whose only model has a different name. -/
theorem schema_not_found_witness :
    (∀ kv ∈ (AnkiDb.mk [("1", Model.mk 7 "Basic" [])] [⟨1, 7, "x"⟩] [] []).colModels,
      kv.2.name ≠ targetModelName) ∧
    getNotesForReviewedCards (AnkiDb.mk [("1", Model.mk 7 "Basic" [])] [⟨1, 7, "x"⟩] [] [])
        (some 0) true =
      .error "Could not find the NihongoShark.com: Kanji metadata." :=
  ⟨by decide, schema_not_found _ (some 0) true (by decide)⟩

/-! ### C8: the look-back window -/

/-- C8: for every days argument `d ≥ 1` the lower bound is the current
time minus `(d - 1) * 24 + 16` hours in milliseconds; the default `d = 1`
looks back exactly 16 hours. -/
theorem lookback_window (nowMs d : Int) (_h : 1 ≤ d) :
    lastTimeMsOfNow nowMs d = nowMs - ((d - 1) * 24 + 16) * 3600 * 1000 ∧
    lastTimeMsOfNow nowMs 1 = nowMs - 16 * 3600 * 1000 := by
  unfold lastTimeMsOfNow secsBack hoursBack
  constructor <;> ring_nf

/-- Witness for C8 at `now = 0`, `d = 1`. -/
theorem lookback_window_witness :
    (1 : Int) ≤ 1 ∧
    (lastTimeMsOfNow 0 1 = 0 - ((1 - 1) * 24 + 16) * 3600 * 1000 ∧
      lastTimeMsOfNow 0 1 = 0 - 16 * 3600 * 1000) :=
  ⟨le_refl 1, lookback_window 0 1 (le_refl 1)⟩

/-! ### C4: the forgotten-only filter -/

/-- C4: with the forgotten-only flag set, the card ids collected from the
review log are exactly the ids of cards with an in-window event whose
`ease` is 1 (events with any other outcome contribute nothing), and the
collected list is free of duplicates. -/
theorem forgotten_filter (revlog : List RevlogRow) (t : Int) (c : Nat) :
    (c ∈ cardIdsInWindow revlog t true ↔
      ∃ r ∈ revlog, t ≤ r.id ∧ r.ease = 1 ∧ r.cid = c) ∧
    (cardIdsInWindow revlog t true).Nodup := by
  constructor
  · have hw : revlogInWindow revlog t true
        = (revlog.filter (fun r => t ≤ r.id)).filter (fun r => r.ease = 1) := rfl
    unfold cardIdsInWindow
    rw [mem_sortedDedup, hw]
    simp only [List.mem_map, List.mem_filter, decide_eq_true_eq]
    constructor
    · rintro ⟨r, ⟨⟨hr, hid⟩, hease⟩, hcid⟩
      exact ⟨r, hr, hid, hease, hcid⟩
    · rintro ⟨r, hr, hid, hease, hcid⟩
      exact ⟨r, ⟨⟨hr, hid⟩, hease⟩, hcid⟩
  · exact nodup_sortedDedup _

/-! ### C3: empty selection -/

/-- C3: with a time bound given, when zero review events pass the window
and outcome filter, `get_notes_for_reviewed_cards` raises the
empty-selection `RuntimeError`, and the whole run aborts with it before
any rendering: `runMain` returns the error for every template, parser,
serializer, filesystem and viewer outcome, so nothing is written. -/
theorem empty_selection (db : AnkiDb) (nowMs : Int) (args : MainArgs)
    (hm : ∃ kv ∈ db.colModels, kv.2.name = targetModelName)
    (he : revlogInWindow db.revlog (lastTimeMsOfNow nowMs args.days) args.forgotten = []) :
    getNotesForReviewedCards db (some (lastTimeMsOfNow nowMs args.days)) args.forgotten =
      .error "No cards found in time window!" ∧
    ∀ parseImg serImg fs mediaDir render c,
      runMain db nowMs args parseImg serImg fs mediaDir render c =
        .error "No cards found in time window!" := by
  obtain ⟨m, hfind, _⟩ := findModel_of_exists hm
  have hids : cardIdsInWindow db.revlog (lastTimeMsOfNow nowMs args.days) args.forgotten
      = [] := by
    unfold cardIdsInWindow
    rw [he]
    rfl
  have hget : getNotesForReviewedCards db (some (lastTimeMsOfNow nowMs args.days))
      args.forgotten = .error "No cards found in time window!" := by
    simp only [getNotesForReviewedCards, hfind, hids, List.isEmpty_nil, if_true]
  refine ⟨hget, fun parseImg serImg fs mediaDir render c => ?_⟩
  simp only [runMain, hget]

/-- Witness for C3: a database holding the target model but an empty
review log; the run fails with the empty-selection error. -/
theorem empty_selection_witness :
    (∃ kv ∈ (AnkiDb.mk [("7", Model.mk 7 targetModelName [⟨"kanji", 0⟩])]
        [⟨100, 7, "水"⟩] [] []).colModels, kv.2.name = targetModelName) ∧
    ((getNotesForReviewedCards
        (AnkiDb.mk [("7", Model.mk 7 targetModelName [⟨"kanji", 0⟩])] [⟨100, 7, "水"⟩] [] [])
        (some (lastTimeMsOfNow 0 1)) false = .error "No cards found in time window!") ∧
      ∀ parseImg serImg fs mediaDir render c,
        runMain (AnkiDb.mk [("7", Model.mk 7 targetModelName [⟨"kanji", 0⟩])]
            [⟨100, 7, "水"⟩] [] []) 0 (MainArgs.mk 1 false "worksheet.html")
            parseImg serImg fs mediaDir render c =
          .error "No cards found in time window!") :=
  ⟨⟨_, List.mem_singleton_self _, rfl⟩,
    empty_selection _ 0 (MainArgs.mk 1 false "worksheet.html")
      ⟨_, List.mem_singleton_self _, rfl⟩ rfl⟩

/-! ### C9: viewer launch failure is non-fatal -/

/-- C9: once the notes are selected and the images inlined, `main` writes
the rendered text, prints the output path, and succeeds with the same
result for every exit code of the `open` viewer invocation: a viewer
failure never fails the run. -/
theorem viewer_failure_nonfatal (db : AnkiDb) (nowMs : Int) (args : MainArgs)
    (parseImg : String → Option Elem) (serImg : Elem → String)
    (fs : List (String × List Nat)) (mediaDir : String)
    (render : List (List (String × String)) → String)
    (nf inl : List (List (String × String)))
    (h1 : getNotesForReviewedCards db (some (lastTimeMsOfNow nowMs args.days)) args.forgotten
      = .ok nf)
    (h2 : inlineDataImages parseImg serImg fs mediaDir nf = some inl) :
    ∀ c : Int, runMain db nowMs args parseImg serImg fs mediaDir render c =
      .ok ⟨args.output, render inl, "Wrote worksheet to " ++ args.output, c⟩ := by
  intro c
  simp only [runMain, h1, h2]

/-- Fixtures for the end-to-end witnesses: a database with the target
model, one note, its card, and one in-window review event. -/
def sampleModel : Model := ⟨7, targetModelName, [⟨"kanji", 0⟩, ⟨"strokeDiagram", 1⟩]⟩

def sampleDb : AnkiDb :=
  ⟨[("7", sampleModel)], [⟨100, 7, "水\x1fIMGREF"⟩], [⟨200, 100⟩], [⟨1000, 200, 1⟩]⟩

/-- A fragment parser for the fixture: the one stroke-diagram string parses
to an `img` element referencing `water.png`. -/
def sampleParse : String → Option Elem :=
  fun s => if s = "IMGREF" then some ⟨"img", [("src", "water.png")]⟩ else none

/-- A serializer for the fixture: renders the `src` attribute. -/
def sampleSer : Elem → String := fun e => (e.get "src").getD ""

/-- A filesystem for the fixture: `media/water.png` holds the PNG magic
bytes. -/
def sampleFs : List (String × List Nat) := [("media/water.png", [137, 80, 78, 71])]

/-- Witness for C9: a full concrete run succeeding at viewer exit code 7. -/
theorem viewer_failure_nonfatal_witness :
    (getNotesForReviewedCards sampleDb (some (lastTimeMsOfNow 57601000 1)) false
      = .ok [[("kanji", "水"), ("strokeDiagram", "IMGREF")]]) ∧
    (inlineDataImages sampleParse sampleSer sampleFs "media"
        [[("kanji", "水"), ("strokeDiagram", "IMGREF")]]
      = some [[("kanji", "水"), ("strokeDiagram", dataUri [137, 80, 78, 71])]]) ∧
    runMain sampleDb 57601000 (MainArgs.mk 1 false "out.html") sampleParse sampleSer
        sampleFs "media" (fun notes => toString notes.length) 7 =
      .ok ⟨"out.html",
        (fun notes => toString notes.length)
          [[("kanji", "水"), ("strokeDiagram", dataUri [137, 80, 78, 71])]],
        "Wrote worksheet to " ++ "out.html", 7⟩ :=
  ⟨rfl, rfl,
    viewer_failure_nonfatal sampleDb 57601000 (MainArgs.mk 1 false "out.html")
      sampleParse sampleSer sampleFs "media" (fun notes => toString notes.length)
      [[("kanji", "水"), ("strokeDiagram", "IMGREF")]]
      [[("kanji", "水"), ("strokeDiagram", dataUri [137, 80, 78, 71])]] rfl rfl 7⟩

/-! ### C2 / C10: the Field Decoder -/

theorem odInsert_of_forall_ne (d : List (String × String)) (k v : String)
    (h : ∀ p ∈ d, ¬ p.1 = k) : odInsert d k v = d ++ [(k, v)] := by
  unfold odInsert
  rw [if_neg]
  simp only [List.any_eq_true, decide_eq_true_eq]
  rintro ⟨p, hp, hpk⟩
  exact h p hp hpk

theorem odOfList_append (l : List (String × String)) :
    ∀ d : List (String × String), (l.map Prod.fst).Nodup →
      (∀ p ∈ l, ∀ q ∈ d, ¬ q.1 = p.1) →
      l.foldl (fun d p => odInsert d p.1 p.2) d = d ++ l := by
  induction l with
  | nil => intro d _ _; simp
  | cons p l ih =>
    intro d hnd hdis
    rw [List.map_cons, List.nodup_cons] at hnd
    obtain ⟨hpn, hln⟩ := hnd
    simp only [List.foldl_cons]
    rw [odInsert_of_forall_ne d p.1 p.2
      (fun q hq => hdis p (List.mem_cons_self p l) q hq)]
    rw [ih (d ++ [(p.1, p.2)]) hln ?_]
    · simp
    · intro p2 hp2 q hq
      rcases List.mem_append.mp hq with hqd | hq1
      · exact hdis p2 (List.mem_cons_of_mem p hp2) q hqd
      · have hq1 : q = (p.1, p.2) := by simpa using hq1
        subst hq1
        intro hcontra
        exact hpn (hcontra ▸ List.mem_map_of_mem Prod.fst hp2)

/-- `OrderedDict(pairs)` is just the pair list when the keys are pairwise
distinct. -/
theorem odOfList_eq_self {l : List (String × String)} (h : (l.map Prod.fst).Nodup) :
    odOfList l = l := by
  unfold odOfList
  simpa using odOfList_append l [] h (by simp)

theorem map_fst_zip_eq_take :
    ∀ (as : List String) (bs : List String), (as.zip bs).map Prod.fst = as.take bs.length
  | [], _ => by simp
  | _ :: _, [] => by simp
  | a :: as, b :: bs => by
    simp only [List.zip_cons_cons, List.map_cons, List.length_cons, List.take_succ_cons]
    rw [map_fst_zip_eq_take as bs]

/-- C2 (amended): when the raw field string splits into exactly `n`
segments and the schema has `n` pairwise-distinct field names, the Field
Decoder yields exactly the `n` pairs of the positional zip, in schema
order, pairing the i-th name with the i-th segment. -/
theorem field_decoder_exact (fieldNames : List String) (raw : String) (n : Nat)
    (hn : fieldNames.length = n) (hs : (splitFields raw).length = n)
    (hd : fieldNames.Nodup) :
    decodeNote fieldNames raw = fieldNames.zip (splitFields raw) ∧
    (decodeNote fieldNames raw).length = n ∧
    ∀ i, i < n → ∃ name seg, fieldNames[i]? = some name ∧
      (splitFields raw)[i]? = some seg ∧
      (decodeNote fieldNames raw)[i]? = some (name, seg) := by
  have hkeys : ((fieldNames.zip (splitFields raw)).map Prod.fst).Nodup := by
    rw [List.map_fst_zip _ _ (by omega)]
    exact hd
  have hz : decodeNote fieldNames raw = fieldNames.zip (splitFields raw) :=
    odOfList_eq_self hkeys
  refine ⟨hz, by rw [hz, List.length_zip]; omega, fun i hi => ?_⟩
  have hi1 : i < fieldNames.length := by omega
  have hi2 : i < (splitFields raw).length := by omega
  refine ⟨fieldNames[i], (splitFields raw)[i],
    List.getElem?_eq_getElem hi1, List.getElem?_eq_getElem hi2, ?_⟩
  rw [hz]
  exact List.getElem?_zip_eq_some.mpr
    ⟨List.getElem?_eq_getElem hi1, List.getElem?_eq_getElem hi2⟩

/-- Counterexample to C2 as stated: with the two-name schema
`["a", "a"]` and a raw string of two segments, the `OrderedDict` collapses
the repeated key, so the decoder returns one pair, not two. -/
theorem field_decoder_exact_cex :
    (["a", "a"] : List String).length = 2 ∧
    (splitFields "x\x1fy").length = 2 ∧
    decodeNote ["a", "a"] "x\x1fy" ≠ (["a", "a"] : List String).zip (splitFields "x\x1fy") ∧
    (decodeNote ["a", "a"] "x\x1fy").length = 1 := by decide

/-- Witness for the amended C2 at a concrete schema and raw string. -/
theorem field_decoder_exact_witness :
    ((["kanji", "strokeDiagram"] : List String).length = 2 ∧
      (splitFields "水\x1fIMGREF").length = 2 ∧
      (["kanji", "strokeDiagram"] : List String).Nodup) ∧
    (decodeNote ["kanji", "strokeDiagram"] "水\x1fIMGREF"
        = (["kanji", "strokeDiagram"] : List String).zip (splitFields "水\x1fIMGREF") ∧
      (decodeNote ["kanji", "strokeDiagram"] "水\x1fIMGREF").length = 2 ∧
      ∀ i, i < 2 → ∃ name seg,
        (["kanji", "strokeDiagram"] : List String)[i]? = some name ∧
        (splitFields "水\x1fIMGREF")[i]? = some seg ∧
        (decodeNote ["kanji", "strokeDiagram"] "水\x1fIMGREF")[i]? = some (name, seg)) :=
  ⟨⟨by decide, by decide, by decide⟩,
    field_decoder_exact ["kanji", "strokeDiagram"] "水\x1fIMGREF" 2
      (by decide) (by decide) (by decide)⟩

/-- C10 (amended): when the segment count `M` and the name count `N`
differ, the decoder does not fail; it zips and truncates at the shorter
sequence, yielding exactly `min N M` pairs — provided the names actually
paired (the first `min N M`) are pairwise distinct. -/
theorem field_decoder_truncates (fieldNames : List String) (raw : String)
    (hd : (fieldNames.take (splitFields raw).length).Nodup) :
    decodeNote fieldNames raw = fieldNames.zip (splitFields raw) ∧
    (decodeNote fieldNames raw).length
      = min fieldNames.length (splitFields raw).length := by
  have hkeys : ((fieldNames.zip (splitFields raw)).map Prod.fst).Nodup := by
    rw [map_fst_zip_eq_take]
    exact hd
  have hz : decodeNote fieldNames raw = fieldNames.zip (splitFields raw) :=
    odOfList_eq_self hkeys
  exact ⟨hz, by rw [hz, List.length_zip]⟩

/-- Counterexample to C10 as stated: three names, two segments, so
`min(M, N) = 2`, but the repeated name collapses and only one pair
remains. -/
theorem field_decoder_truncates_cex :
    (["a", "a", "b"] : List String).length = 3 ∧
    (splitFields "x\x1fy").length = 2 ∧
    (decodeNote ["a", "a", "b"] "x\x1fy").length = 1 ∧
    (decodeNote ["a", "a", "b"] "x\x1fy").length ≠
      min (["a", "a", "b"] : List String).length (splitFields "x\x1fy").length := by
  decide

/-- Witness for the amended C10: three distinct names, two segments. -/
theorem field_decoder_truncates_witness :
    ((["a", "b", "c"] : List String).take (splitFields "x\x1fy").length).Nodup ∧
    (decodeNote ["a", "b", "c"] "x\x1fy"
        = (["a", "b", "c"] : List String).zip (splitFields "x\x1fy") ∧
      (decodeNote ["a", "b", "c"] "x\x1fy").length
        = min (["a", "b", "c"] : List String).length (splitFields "x\x1fy").length) :=
  ⟨by decide, field_decoder_truncates ["a", "b", "c"] "x\x1fy" (by decide)⟩

/-! ### C5: the base64 round trip -/

theorem decChar_encChar {n : Nat} (h : n < 64) : decChar (encChar n) = some n := by
  have hall : ∀ m : Fin 64, decChar (encChar m.val) = some m.val := by decide
  exact hall ⟨n, h⟩

theorem encChar_ne_pad {n : Nat} (h : n < 64) : encChar n ≠ '=' := by
  have hall : ∀ m : Fin 64, encChar m.val ≠ '=' := by decide
  exact hall ⟨n, h⟩

theorem encChar_ne_newline {n : Nat} (h : n < 64) : encChar n ≠ '\n' := by
  have hall : ∀ m : Fin 64, encChar m.val ≠ '\n' := by decide
  exact hall ⟨n, h⟩

theorem decodeQuad_enc1 (b1 : Nat) (h1 : b1 < 256) :
    decodeQuad (encChar (b1 / 4)) (encChar (b1 % 4 * 16)) '=' '=' = some [b1] := by
  unfold decodeQuad
  rw [decChar_encChar (show b1 / 4 < 64 by omega),
    decChar_encChar (show b1 % 4 * 16 < 64 by omega)]
  simp only [Option.bind_eq_bind, Option.some_bind]
  simp only [if_true]
  have e1 : b1 / 4 * 4 + b1 % 4 * 16 / 16 = b1 := by omega
  rw [e1]

theorem decodeQuad_enc2 (b1 b2 : Nat) (h1 : b1 < 256) (h2 : b2 < 256) :
    decodeQuad (encChar (b1 / 4)) (encChar (b1 % 4 * 16 + b2 / 16))
      (encChar (b2 % 16 * 4)) '=' = some [b1, b2] := by
  unfold decodeQuad
  rw [decChar_encChar (show b1 / 4 < 64 by omega),
    decChar_encChar (show b1 % 4 * 16 + b2 / 16 < 64 by omega)]
  simp only [Option.bind_eq_bind, Option.some_bind]
  rw [if_neg (encChar_ne_pad (show b2 % 16 * 4 < 64 by omega)),
    decChar_encChar (show b2 % 16 * 4 < 64 by omega)]
  simp only [Option.bind_eq_bind, Option.some_bind]
  simp only [if_true]
  have e1 : b1 / 4 * 4 + (b1 % 4 * 16 + b2 / 16) / 16 = b1 := by omega
  have e2 : (b1 % 4 * 16 + b2 / 16) % 16 * 16 + b2 % 16 * 4 / 4 = b2 := by omega
  rw [e1, e2]

theorem decodeQuad_enc3 (b1 b2 b3 : Nat) (h1 : b1 < 256) (h2 : b2 < 256) (h3 : b3 < 256) :
    decodeQuad (encChar (b1 / 4)) (encChar (b1 % 4 * 16 + b2 / 16))
      (encChar (b2 % 16 * 4 + b3 / 64)) (encChar (b3 % 64)) = some [b1, b2, b3] := by
  unfold decodeQuad
  rw [decChar_encChar (show b1 / 4 < 64 by omega),
    decChar_encChar (show b1 % 4 * 16 + b2 / 16 < 64 by omega)]
  simp only [Option.bind_eq_bind, Option.some_bind]
  rw [if_neg (encChar_ne_pad (show b2 % 16 * 4 + b3 / 64 < 64 by omega)),
    decChar_encChar (show b2 % 16 * 4 + b3 / 64 < 64 by omega)]
  simp only [Option.bind_eq_bind, Option.some_bind]
  rw [if_neg (encChar_ne_pad (show b3 % 64 < 64 by omega)),
    decChar_encChar (show b3 % 64 < 64 by omega)]
  simp only [Option.bind_eq_bind, Option.some_bind]
  have e1 : b1 / 4 * 4 + (b1 % 4 * 16 + b2 / 16) / 16 = b1 := by omega
  have e2 : (b1 % 4 * 16 + b2 / 16) % 16 * 16 + (b2 % 16 * 4 + b3 / 64) / 4 = b2 := by
    omega
  have e3 : (b2 % 16 * 4 + b3 / 64) % 4 * 64 + b3 % 64 = b3 := by omega
  rw [e1, e2, e3]

theorem decode64Groups_encode64 : ∀ bs : List Nat, (∀ b ∈ bs, b < 256) →
    decode64Groups (encode64 bs) = some bs
  | [], _ => rfl
  | [b1], h => by
    have h1 : b1 < 256 := h b1 (by simp)
    show decode64Groups [encChar (b1 / 4), encChar (b1 % 4 * 16), '=', '='] = some [b1]
    simp [decode64Groups, decodeQuad_enc1 b1 h1]
  | [b1, b2], h => by
    have h1 : b1 < 256 := h b1 (by simp)
    have h2 : b2 < 256 := h b2 (by simp)
    show decode64Groups [encChar (b1 / 4), encChar (b1 % 4 * 16 + b2 / 16),
      encChar (b2 % 16 * 4), '='] = some [b1, b2]
    simp [decode64Groups, decodeQuad_enc2 b1 b2 h1 h2]
  | b1 :: b2 :: b3 :: rest, h => by
    have h1 : b1 < 256 := h b1 (by simp)
    have h2 : b2 < 256 := h b2 (by simp)
    have h3 : b3 < 256 := h b3 (by simp)
    have ih := decode64Groups_encode64 rest (fun b hb => h b (by simp [hb]))
    show decode64Groups (encChar (b1 / 4) :: encChar (b1 % 4 * 16 + b2 / 16) ::
      encChar (b2 % 16 * 4 + b3 / 64) :: encChar (b3 % 64) :: encode64 rest)
      = some (b1 :: b2 :: b3 :: rest)
    simp [decode64Groups, decodeQuad_enc3 b1 b2 b3 h1 h2 h3, ih]

theorem newline_not_mem_encode64 : ∀ bs : List Nat, (∀ b ∈ bs, b < 256) →
    '\n' ∉ encode64 bs
  | [], _ => by simp [encode64]
  | [b1], h => by
    have h1 : b1 < 256 := h b1 (by simp)
    intro hmem
    simp only [encode64, List.mem_cons, List.not_mem_nil, or_false] at hmem
    rcases hmem with h' | h' | h' | h'
    · exact encChar_ne_newline (show b1 / 4 < 64 by omega) h'.symm
    · exact encChar_ne_newline (show b1 % 4 * 16 < 64 by omega) h'.symm
    · exact absurd h' (by decide)
    · exact absurd h' (by decide)
  | [b1, b2], h => by
    have h1 : b1 < 256 := h b1 (by simp)
    have h2 : b2 < 256 := h b2 (by simp)
    intro hmem
    simp only [encode64, List.mem_cons, List.not_mem_nil, or_false] at hmem
    rcases hmem with h' | h' | h' | h'
    · exact encChar_ne_newline (show b1 / 4 < 64 by omega) h'.symm
    · exact encChar_ne_newline (show b1 % 4 * 16 + b2 / 16 < 64 by omega) h'.symm
    · exact encChar_ne_newline (show b2 % 16 * 4 < 64 by omega) h'.symm
    · exact absurd h' (by decide)
  | b1 :: b2 :: b3 :: rest, h => by
    have h1 : b1 < 256 := h b1 (by simp)
    have h2 : b2 < 256 := h b2 (by simp)
    have h3 : b3 < 256 := h b3 (by simp)
    have ih := newline_not_mem_encode64 rest (fun b hb => h b (by simp [hb]))
    intro hmem
    simp only [encode64, List.mem_cons] at hmem
    rcases hmem with h' | h' | h' | h' | h'
    · exact encChar_ne_newline (show b1 / 4 < 64 by omega) h'.symm
    · exact encChar_ne_newline (show b1 % 4 * 16 + b2 / 16 < 64 by omega) h'.symm
    · exact encChar_ne_newline (show b2 % 16 * 4 + b3 / 64 < 64 by omega) h'.symm
    · exact encChar_ne_newline (show b3 % 64 < 64 by omega) h'.symm
    · exact ih h'

theorem filter_mimeWrapAux : ∀ (fuel : Nat) (l : List Char), l.length ≤ fuel →
    '\n' ∉ l → (mimeWrapAux fuel l).filter (fun c => c ≠ '\n') = l
  | fuel, [], _, _ => by cases fuel <;> rfl
  | 0, c :: l, h, _ => by simp at h
  | fuel + 1, c :: l, h, hnl => by
    show ((c :: l).take 76 ++ '\n' :: mimeWrapAux fuel ((c :: l).drop 76)).filter _
      = c :: l
    rw [List.filter_append]
    have ht : ((c :: l).take 76).filter (fun c => c ≠ '\n') = (c :: l).take 76 :=
      List.filter_eq_self.mpr (fun a ha => by
        have hin : a ∈ c :: l := List.take_subset _ _ ha
        simp only [ne_eq, decide_eq_true_eq]
        intro he
        exact hnl (he ▸ hin))
    have hlen : ((c :: l).drop 76).length ≤ fuel := by
      rw [List.length_drop]
      simp only [List.length_cons] at h ⊢
      omega
    have hdrop : '\n' ∉ (c :: l).drop 76 := fun hx => hnl (List.drop_subset _ _ hx)
    rw [ht, List.filter_cons]
    rw [if_neg (show ¬((fun c => decide (c ≠ '\n')) '\n' = true) by decide)]
    rw [filter_mimeWrapAux fuel ((c :: l).drop 76) hlen hdrop]
    exact List.take_append_drop 76 (c :: l)

theorem decode64_encodeMime (bs : List Nat) (h : ∀ b ∈ bs, b < 256) :
    decode64 (encodeMime bs) = some bs := by
  unfold decode64 encodeMime
  rw [filter_mimeWrapAux _ _ (le_refl _) (newline_not_mem_encode64 bs h)]
  exact decode64Groups_encode64 bs h

/-- C5: for every byte sequence (each byte below 256), the payload that
`inline_data_images` embeds after the fixed `data:image/png;base64,` head
of the rewritten `src` attribute is the base64 encoding of the file bytes,
and base64-decoding that payload recovers the original bytes exactly. -/
theorem inline_base64_roundtrip (bs : List Nat) (h : ∀ b ∈ bs, b < 256) :
    (dataUri bs).data = base64UriHead.data ++ encodeMime bs ∧
    decode64 (encodeMime bs) = some bs := by
  constructor
  · show (base64UriHead ++ String.mk (encodeMime bs)).data = _
    rw [String.data_append]
  · exact decode64_encodeMime bs h

/-- Witness for C5 on the PNG magic bytes. -/
theorem inline_base64_roundtrip_witness :
    (∀ b ∈ [137, 80, 78, 71], b < 256) ∧
    ((dataUri [137, 80, 78, 71]).data
        = base64UriHead.data ++ encodeMime [137, 80, 78, 71] ∧
      decode64 (encodeMime [137, 80, 78, 71]) = some [137, 80, 78, 71]) :=
  ⟨by decide, inline_base64_roundtrip [137, 80, 78, 71] (by decide)⟩

/-! ### C6: the inliner rewrites `strokeDiagram` in place and nothing else -/

theorem odInsert_of_get_some {d : List (String × String)} {k sd : String}
    (h : odGet d k = some sd) (v : String) :
    odInsert d k v = d.map (fun p => if p.1 = k then (k, v) else p) := by
  unfold odInsert
  rw [if_pos]
  rw [List.any_eq_true]
  unfold odGet at h
  cases hf : d.find? (fun q => q.1 = k) with
  | none => rw [hf] at h; simp at h
  | some q =>
    have hq := List.find?_some hf
    exact ⟨q, List.mem_of_find?_eq_some hf, hq⟩

theorem inlineNote_eq_some {parseImg : String → Option Elem} {serImg : Elem → String}
    {fs : List (String × List Nat)} {mediaDir : String}
    {note out : List (String × String)}
    (h : inlineNote parseImg serImg fs mediaDir note = some out) :
    ∃ sd img basename fileData,
      odGet note "strokeDiagram" = some sd ∧
      parseImg sd = some img ∧
      Elem.get img "src" = some basename ∧
      readFile fs (pathJoin mediaDir basename) = some fileData ∧
      out = odInsert note "strokeDiagram"
        (serImg (img.set "src" (dataUri fileData))) := by
  unfold inlineNote at h
  simp only [Option.bind_eq_bind, Option.bind_eq_some, Option.some.injEq] at h
  obtain ⟨sd, h1, img, h2, basename, h3, fileData, h4, h5⟩ := h
  exact ⟨sd, img, basename, fileData, h1, h2, h3, h4, h5.symm⟩

theorem map_frame_fst (v : String) (d : List (String × String)) :
    (d.map (fun p => if p.1 = "strokeDiagram" then ("strokeDiagram", v) else p)).map
        Prod.fst
      = d.map Prod.fst := by
  induction d with
  | nil => rfl
  | cons p d ih =>
    simp only [List.map_cons, ih, List.cons.injEq, and_true]
    by_cases h : p.1 = "strokeDiagram" <;> simp [h]

theorem odGet_map_frame (v k : String) (hk : ¬ k = "strokeDiagram")
    (d : List (String × String)) :
    odGet (d.map (fun p => if p.1 = "strokeDiagram" then ("strokeDiagram", v) else p)) k
      = odGet d k := by
  induction d with
  | nil => rfl
  | cons p d ih =>
    unfold odGet at ih ⊢
    by_cases h : p.1 = "strokeDiagram"
    · simp only [List.map_cons, if_pos h]
      rw [List.find?_cons_of_neg _ (by
          simp only [decide_eq_true_eq]
          exact fun hh => hk hh.symm),
        List.find?_cons_of_neg _ (by
          simp only [decide_eq_true_eq]
          rw [h]
          exact fun hh => hk hh.symm)]
      exact ih
    · simp only [List.map_cons, if_neg h]
      by_cases hpk : p.1 = k
      · rw [List.find?_cons_of_pos _ (by simpa using hpk),
          List.find?_cons_of_pos _ (by simpa using hpk)]
      · rw [List.find?_cons_of_neg _ (by simpa using hpk),
          List.find?_cons_of_neg _ (by simpa using hpk)]
        exact ih

/-- C6: when `inline_data_images` completes, the note list keeps its
length and order; in every note the `strokeDiagram` value is rewritten to
the serialized element whose `src` is the base64 `data:` URI of the
referenced file's bytes, as an in-place update: the keys, their order, and
the value under every other key are unchanged.  (The Python function
mutates the dicts and returns `None`; the mutation is modelled by the
returned list.) -/
theorem inliner_frame (parseImg : String → Option Elem) (serImg : Elem → String)
    (fs : List (String × List Nat)) (mediaDir : String) :
    ∀ (notes out : List (List (String × String))),
      inlineDataImages parseImg serImg fs mediaDir notes = some out →
      out.length = notes.length ∧
      ∀ i (hi : i < notes.length) (hi2 : i < out.length),
        ∃ sd img basename fileData,
          odGet (notes.get ⟨i, hi⟩) "strokeDiagram" = some sd ∧
          parseImg sd = some img ∧
          Elem.get img "src" = some basename ∧
          readFile fs (pathJoin mediaDir basename) = some fileData ∧
          out.get ⟨i, hi2⟩ = (notes.get ⟨i, hi⟩).map (fun p =>
            if p.1 = "strokeDiagram"
            then ("strokeDiagram", serImg (img.set "src" (dataUri fileData)))
            else p) ∧
          (out.get ⟨i, hi2⟩).map Prod.fst = (notes.get ⟨i, hi⟩).map Prod.fst ∧
          ∀ k, ¬ k = "strokeDiagram" →
            odGet (out.get ⟨i, hi2⟩) k = odGet (notes.get ⟨i, hi⟩) k := by
  intro notes
  induction notes with
  | nil =>
    intro out h
    unfold inlineDataImages at h
    obtain rfl := Option.some.inj h
    exact ⟨rfl, fun i hi => absurd hi (by simp)⟩
  | cons note rest ih =>
    intro out h
    unfold inlineDataImages at h
    simp only [Option.bind_eq_bind, Option.bind_eq_some, Option.some.injEq] at h
    obtain ⟨note2, hn, rest2, hr, hout⟩ := h
    subst hout
    obtain ⟨hlen, hrest⟩ := ih rest2 hr
    refine ⟨by simpa using hlen, fun i hi hi2 => ?_⟩
    cases i with
    | zero =>
      have e1 : (note :: rest).get ⟨0, hi⟩ = note := rfl
      have e2 : (note2 :: rest2).get ⟨0, hi2⟩ = note2 := rfl
      rw [e1, e2]
      obtain ⟨sd, img, basename, fileData, h1, h2, h3, h4, h5⟩ := inlineNote_eq_some hn
      refine ⟨sd, img, basename, fileData, h1, h2, h3, h4, ?_, ?_, ?_⟩
      · rw [h5, odInsert_of_get_some h1]
      · rw [h5, odInsert_of_get_some h1, map_frame_fst]
      · intro k hk
        rw [h5, odInsert_of_get_some h1, odGet_map_frame _ _ hk]
    | succ i =>
      have e1 : (note :: rest).get ⟨i + 1, hi⟩ = rest.get ⟨i, by simpa using hi⟩ := rfl
      have e2 : (note2 :: rest2).get ⟨i + 1, hi2⟩
        = rest2.get ⟨i, by simpa using hi2⟩ := rfl
      rw [e1, e2]
      exact hrest i (by simpa using hi) (by simpa using hi2)

/-- Witness for C6 on the end-to-end fixture. -/
theorem inliner_frame_witness :
    (inlineDataImages sampleParse sampleSer sampleFs "media"
        [[("kanji", "水"), ("strokeDiagram", "IMGREF")]]
      = some [[("kanji", "水"), ("strokeDiagram", dataUri [137, 80, 78, 71])]]) ∧
    ([[("kanji", "水"), ("strokeDiagram", dataUri [137, 80, 78, 71])]].length
        = [[("kanji", "水"), ("strokeDiagram", "IMGREF")]].length ∧
      ∀ i (hi : i < [[("kanji", "水"), ("strokeDiagram", "IMGREF")]].length)
        (hi2 : i < [[("kanji", "水"), ("strokeDiagram", dataUri [137, 80, 78, 71])]].length),
        ∃ sd img basename fileData,
          odGet ([[("kanji", "水"), ("strokeDiagram", "IMGREF")]].get ⟨i, hi⟩)
              "strokeDiagram" = some sd ∧
          sampleParse sd = some img ∧
          Elem.get img "src" = some basename ∧
          readFile sampleFs (pathJoin "media" basename) = some fileData ∧
          ([[("kanji", "水"), ("strokeDiagram", dataUri [137, 80, 78, 71])]].get ⟨i, hi2⟩)
            = (([[("kanji", "水"), ("strokeDiagram", "IMGREF")]].get ⟨i, hi⟩).map (fun p =>
                if p.1 = "strokeDiagram"
                then ("strokeDiagram", sampleSer (img.set "src" (dataUri fileData)))
                else p)) ∧
          (([[("kanji", "水"), ("strokeDiagram", dataUri [137, 80, 78, 71])]].get
              ⟨i, hi2⟩).map Prod.fst)
            = (([[("kanji", "水"), ("strokeDiagram", "IMGREF")]].get ⟨i, hi⟩).map
                Prod.fst) ∧
          ∀ k, ¬ k = "strokeDiagram" →
            odGet ([[("kanji", "水"), ("strokeDiagram", dataUri [137, 80, 78, 71])]].get
                ⟨i, hi2⟩) k
              = odGet ([[("kanji", "水"), ("strokeDiagram", "IMGREF")]].get ⟨i, hi⟩) k) :=
  ⟨rfl, inliner_frame sampleParse sampleSer sampleFs "media"
    [[("kanji", "水"), ("strokeDiagram", "IMGREF")]]
    [[("kanji", "水"), ("strokeDiagram", dataUri [137, 80, 78, 71])]] rfl⟩

end KanjiWorksheet
